import Mathlib

/-!
Verification development for the scf-untagged-scan repository
(`src/index.js`, the SCF entrypoint, and the full variant
`src/unnamed/part_000`, i.e. `scf-untagged-scan.js`).

The JavaScript source is shallowly embedded: dynamic JS values become the
`JVal` inductive, async computations become explicit `Option (Nat × _)`
values (`none` = a promise that never settles, `some (t, v)` = a promise
that resolves at abstract time `t` with value `v`), and loops become
fueled or structurally recursive Lean functions.  Machine details that
the claims do not touch (HTTP, SDK clients) are abstracted into oracle
functions passed as parameters.
-/

namespace Scan

/-- A JSON-like dynamic value, the shape `extractTags` and the COS tag
normalizer probe.  `null` also stands for JS `undefined` (absent field). -/
inductive JVal where
  | null : JVal
  | bool : Bool → JVal
  | num : Int → JVal
  | str : String → JVal
  | arr : List JVal → JVal
  | obj : List (String × JVal) → JVal
deriving Repr

/-- JS truthiness: `null`/`undefined`, `false`, `0`, and `""` are falsy;
every array and object (including empty ones) is truthy. -/
def truthy : JVal → Bool
  | .null => false
  | .bool b => b
  | .num n => n != 0
  | .str s => s != ""
  | .arr _ => true
  | .obj _ => true

/-- JS property access `v.k`: yields the field of an object, `undefined`
(modelled `null`) on a missing field or a non-object receiver. -/
def getField : JVal → String → JVal
  | .obj fs, k =>
    match fs.find? (fun p => p.fst == k) with
    | some p => p.snd
    | none => .null
  | _, _ => .null

/-- The ordered candidate fields probed by `extractTags`
(source: `src/index.js` lines 35-41, identical in `part_000`):
`obj.Tags, obj.TagSet, obj.TagList, obj.ResourceTags, obj.Tags?.TagSet`. -/
def candidatesOf (v : JVal) : List JVal :=
  [getField v "Tags", getField v "TagSet", getField v "TagList",
   getField v "ResourceTags", getField (getField v "Tags") "TagSet"]

/-- The `for (const c of candidates)` loop body of `extractTags`:
the first candidate that is an array is returned as-is, the first that is
an object yields its key list, and any other candidate is skipped. -/
def firstTagLike : List JVal → List JVal
  | [] => []
  | .arr xs :: _ => xs
  | .obj fs :: _ => fs.map (fun p => JVal.str p.fst)
  | _ :: rest => firstTagLike rest

/-- `extractTags` from `src/index.js` lines 33-47: guard `if (!obj) return []`,
then filter the candidates by truthiness and run the probe loop. -/
def extractTags (v : JVal) : List JVal :=
  if truthy v then firstTagLike ((candidatesOf v).filter truthy) else []

/-- `hasNoTags` from `src/index.js` lines 48-51. -/
def hasNoTags (v : JVal) : Bool :=
  (extractTags v).length == 0

/-- Modelled from the claim wording of C3 (spec §4.2): return the first
candidate that is non-empty/non-null, as-is for a sequence, its keys for a
mapping, and the empty sequence otherwise.  This is the claim's reading,
kept for comparison with the source-derived `extractTags`. -/
def nonEmptyNonNull : JVal → Bool
  | .null => false
  | .bool _ => true
  | .num _ => true
  | .str s => s != ""
  | .arr xs => !xs.isEmpty
  | .obj fs => !fs.isEmpty

/-- The C3 claim's version of `extractTags` (spec words, not the source). -/
def extractTagsClaimC3 (v : JVal) : List JVal :=
  match (candidatesOf v).find? nonEmptyNonNull with
  | some (.arr xs) => xs
  | some (.obj fs) => fs.map (fun p => JVal.str p.fst)
  | _ => []

/-- Projection used to characterize the probe loop: an array projects to
itself, an object to its key list, anything else to `none`. -/
def tagProj : JVal → Option (List JVal)
  | .arr xs => some xs
  | .obj fs => some (fs.map (fun p => JVal.str p.fst))
  | _ => none

/-! ### Pagination

`pagedFetch` is declared twice in `part_000`.  The first declaration
(lines 124-138) wraps each page in `withTimeout` and enforces the
`MAX_PAGES_PER_LIST` cap; the second declaration (lines 165-176, and the
only one in `src/index.js` lines 65-76) has neither, and by JS function
hoisting it overrides the first for every call in the file.  Both are
embedded below.  The number of `fetchPage` invocations is returned
alongside the gathered items so page-count claims can be stated. -/

/-- The effective `pagedFetch` loop (`src/index.js` lines 65-76): fueled,
`none` meaning the fuel was insufficient to finish the (possibly
unbounded) loop.  `fetch offset limit` is the synchronous view of one
page request. -/
def pagedFetchAux (fetch : Nat → Nat → List α) (pageSize : Nat) :
    Nat → Nat → Option (List α × Nat)
  | _, 0 => none
  | offset, fuel + 1 =>
    let items := fetch offset pageSize
    if items.length < pageSize then
      some (items, 1)
    else
      match pagedFetchAux fetch pageSize (offset + pageSize) fuel with
      | none => none
      | some (rest, calls) => some (items ++ rest, calls + 1)

/-- One page of a finite backing sequence: `(offset, limit)` returns the
slice `backing[offset : offset+limit]`. -/
def fetchOf (backing : List α) : Nat → Nat → List α :=
  fun offset limit => (backing.drop offset).take limit

/-- The effective `pagedFetch` run against a finite backing sequence,
with enough fuel for the loop to reach its natural end. -/
def pagedFetch (backing : List α) (pageSize : Nat) : Option (List α × Nat) :=
  pagedFetchAux (fetchOf backing) pageSize 0 (backing.length + 1)

/-- `withTimeout` (`part_000` lines 83-88): races a promise against a
timer.  A promise is `none` (never settles) or `some (t, v)` (resolves at
abstract time `t`).  The timer fires at `ms`; a promise that has not
resolved by then loses the race and the result is a timeout error. -/
def withTimeout (ms : Nat) (tag : String) : Option (Nat × α) → Except String α
  | none => .error ("timeout:" ++ tag)
  | some (t, v) => if t ≤ ms then .ok v else .error ("timeout:" ++ tag)

/-- The shadowed first `pagedFetch` declaration (`part_000` lines
124-138): per-page `withTimeout` and the `pages >= parsedMaxPagesPerList`
cap.  `remaining` counts the loop iterations still allowed beyond the
current one, so the entry point below passes `maxPages - 1`. -/
def pagedFetchTimedAux (fetch : Nat → Nat → Option (Nat × List α))
    (pageSize reqTimeout : Nat) : Nat → Nat → Except String (List α × Nat)
  | offset, remaining =>
    match withTimeout reqTimeout "page" (fetch offset pageSize) with
    | .error e => .error e
    | .ok items =>
      if items.length < pageSize then .ok (items, 1)
      else
        match remaining with
        | 0 => .ok (items, 1)
        | r + 1 =>
          match pagedFetchTimedAux fetch pageSize reqTimeout (offset + pageSize) r with
          | .error e => .error e
          | .ok (rest, calls) => .ok (items ++ rest, calls + 1)

/-- Entry point of the shadowed timed-and-capped `pagedFetch`. -/
def pagedFetchTimed (fetch : Nat → Nat → Option (Nat × List α))
    (pageSize reqTimeout maxPages : Nat) : Except String (List α × Nat) :=
  pagedFetchTimedAux fetch pageSize reqTimeout 0 (maxPages - 1)

/-- Outcome of awaiting an async computation that has no timeout around
it: either the await never completes, or it yields a value. -/
inductive AsyncOut (α : Type) where
  | hang : AsyncOut α
  | done : α → AsyncOut α
deriving Repr

/-- The effective `pagedFetch` applied to asynchronous pages `fetch`
(`none` = a page request that never settles).  Since the loop has no
`withTimeout`, a hanging page hangs the whole paginated fetch. -/
def pagedFetchPlainAux (fetch : Nat → Nat → Option (Nat × List α))
    (pageSize : Nat) : Nat → Nat → Option (AsyncOut (List α × Nat))
  | _, 0 => none
  | offset, fuel + 1 =>
    match fetch offset pageSize with
    | none => some .hang
    | some (_, items) =>
      if items.length < pageSize then some (.done (items, 1))
      else
        match pagedFetchPlainAux fetch pageSize (offset + pageSize) fuel with
        | none => none
        | some .hang => some .hang
        | some (.done (rest, calls)) => some (.done (items ++ rest, calls + 1))

/-- A page request that never resolves. -/
def hangingFetch : Nat → Nat → Option (Nat × List JVal) := fun _ _ => none

/-- A backend whose every page resolves immediately with exactly
`pageSize = 100` items (an "unbounded" listing). -/
def fullPageFetch : Nat → Nat → List Nat := fun _ _ => List.replicate 100 0

/-- Async view of `fullPageFetch` for the timed variant. -/
def fullPageFetchAsync : Nat → Nat → Option (Nat × List Nat) :=
  fun _ _ => some (0, List.replicate 100 0)

/-- `part_000` region worker's per-unit guard (lines 836-848): the unit
body is wrapped in `withTimeout(fn(), parsedServiceTimeout, ...)` inside a
`try/catch`, so an error or a hang degrades to zero records. -/
def unitRunFull (serviceTimeout : Nat) (tag : String)
    (unit : Option (Nat × List α)) : List α :=
  match withTimeout serviceTimeout tag unit with
  | .error _ => []
  | .ok items => items

/-- `src/index.js` region worker's per-unit guard (lines 500-513): a bare
`await fn()` inside `try/catch`; a rejection is absorbed, but a unit whose
promise never settles hangs the awaiting task. -/
def unitRunIndex (unit : Option (Nat × List α)) : AsyncOut (List α) :=
  match unit with
  | none => .hang
  | some (_, items) => .done items

/-! ### Strings: trim, split, and code-point comparison

JS `String.prototype.trim`, `split(",")`, and `localeCompare` are
modelled by structurally recursive functions on the character list
(`localeCompare` as code-point lexicographic comparison). -/

/-- Lexicographic strict comparison of character lists by code point. -/
def charListLt : List Char → List Char → Bool
  | [], [] => false
  | [], _ :: _ => true
  | _ :: _, [] => false
  | a :: as, b :: bs => if a = b then charListLt as bs else decide (a < b)

/-- `a.localeCompare(b) < 0`, modelled as code-point order. -/
def strLt (a b : String) : Bool := charListLt a.data b.data

/-- Whitespace recognized by the trim model. -/
def isSpaceChar (c : Char) : Bool := c = ' ' || c = '\t' || c = '\n' || c = '\r'

/-- JS `s.trim()`. -/
def jsTrim (s : String) : String :=
  String.mk (((s.data.dropWhile isSpaceChar).reverse.dropWhile isSpaceChar).reverse)

/-- Accumulator loop of `split(",")`: `cur` holds the current segment
reversed. -/
def splitCommaAux : List Char → List Char → List String
  | [], cur => [String.mk cur.reverse]
  | c :: cs, cur =>
    if c = ',' then String.mk cur.reverse :: splitCommaAux cs []
    else splitCommaAux cs (c :: cur)

/-- JS `s.split(",")`. -/
def jsSplitComma (s : String) : List String := splitCommaAux s.data []

/-- JS `String(x).toLowerCase()` for ASCII. -/
def jsToLower (s : String) : String := String.mk (s.data.map Char.toLower)

/-! ### Region resolution -/

/-- First-occurrence deduplication, the behavior of
`Array.from(new Set(regs))`. -/
def jsSetDedup (l : List String) : List String :=
  l.foldl (fun acc x => if x ∈ acc then acc else acc ++ [x]) []

/-- The `DescribeRegions` extraction (`part_000` lines 155-156):
`(res.RegionSet || []).map(r => r.Region).filter(Boolean)` then dedup.
Each entry models `r.Region` (`none` = field missing). -/
def describeRegionsExtract (regionSet : List (Option String)) : List String :=
  jsSetDedup (regionSet.filterMap
    (fun o => o.bind (fun t => if t = "" then none else some t)))

/-- `listAllRegions` from `part_000` lines 145-157.  `scanRegions` models
the `SCAN_REGIONS` env var; `describe` is the outcome of the
`DescribeRegions` network call (consulted only on the fallback path). -/
def listAllRegions (scanRegions : Option String)
    (describe : Except String (List (Option String))) : Except String (List String) :=
  match scanRegions with
  | some s =>
    if jsTrim s = "" then
      describe.map describeRegionsExtract
    else
      .ok (((jsSplitComma s).map jsTrim).filter (fun t => t ≠ ""))
  | none => describe.map describeRegionsExtract

/-- Modelled from the claim wording of C9 (spec §4.4): the override is
split on commas, trimmed, and deduplicated.  Kept for comparison with the
source-derived `listAllRegions`. -/
def listAllRegionsClaimC9 (scanRegions : Option String)
    (describe : Except String (List (Option String))) : Except String (List String) :=
  match scanRegions with
  | some s =>
    if jsTrim s = "" then
      describe.map describeRegionsExtract
    else
      .ok (jsSetDedup (((jsSplitComma s).map jsTrim).filter (fun t => t ≠ "")))
  | none => describe.map describeRegionsExtract

/-! ### Records and result aggregation -/

/-- The normalized output record (spec §3 ScanRecord); field order follows
the CSV column order `region,service,id`. -/
structure ScanRec where
  region : String
  service : String
  id : String
deriving Repr, DecidableEq

/-- The exporter comparator (`src/index.js` lines 532-538) as a
"not greater" test: compare regions first, then services, then ids, each
by `localeCompare` (modelled by `strLt`). -/
def recLEb (a b : ScanRec) : Bool :=
  if strLt a.region b.region then true
  else if strLt b.region a.region then false
  else if strLt a.service b.service then true
  else if strLt b.service a.service then false
  else !(strLt b.id a.id)

/-- The order relation induced by the comparator. -/
def recLE (a b : ScanRec) : Prop := recLEb a b = true

instance : DecidableRel recLE := fun a b => instDecidableEqBool (recLEb a b) true

/-- `outputs.slice().sort(comparator)`: a comparison sort by the
comparator's order (Array.prototype.sort guarantees a sorted
permutation of the input). -/
def sortRecords (l : List ScanRec) : List ScanRec :=
  List.insertionSort recLE l

/-- The claim's explicit tuple order: ascending lexicographically in the
priority region, then service, then id, with string ordering
(code-point) on each field. -/
def lexTupleLE (a b : ScanRec) : Prop :=
  strLt a.region b.region = true ∨
    (a.region = b.region ∧
      (strLt a.service b.service = true ∨
        (a.service = b.service ∧ strLt b.id a.id = false)))

/-! ### The CCN scanner unit (account-global resource kind)

Two variants exist in the sources.  `src/index.js` lines 173-183 maps an
untagged CCN to `{service: "CCN", id: x.CcnId}` (no region field) and its
region worker (line 507) stamps the worker's concrete region on every
pushed record.  `part_000` lines 289-299 maps to
`{service: "CCN", id: x.CcnId, region: "global"}` and its worker (line
842) keeps `it.region ?? region`. -/

/-- An item as returned by a scanner unit, before the worker pushes it:
`service`, `id`, and the optional `region` field of the item. -/
structure UnitItem where
  service : String
  id : JVal
  regionField : Option String
deriving Repr

/-- A record as pushed into `outputs` (id kept as the dynamic value). -/
structure EmitRec where
  service : String
  id : JVal
  region : String
deriving Repr

/-- The CCN unit of `src/index.js` lines 173-183: empty unless the worker
region is the designated home region `eu-frankfurt`; items carry no
region field. -/
def ccnUnitIndex (region : String) (ccnSet : List JVal) : List UnitItem :=
  if region ≠ "eu-frankfurt" then []
  else (ccnSet.filter hasNoTags).map
    (fun x => ⟨"CCN", getField x "CcnId", none⟩)

/-- The CCN unit of `part_000` lines 289-299: same gate, but items are
stamped with the sentinel region `"global"`. -/
def ccnUnitFull (region : String) (ccnSet : List JVal) : List UnitItem :=
  if region ≠ "eu-frankfurt" then []
  else (ccnSet.filter hasNoTags).map
    (fun x => ⟨"CCN", getField x "CcnId", some "global"⟩)

/-- `src/index.js` worker push (line 507): the worker's region is stamped
unconditionally. -/
def pushRecIndex (workerRegion : String) (it : UnitItem) : EmitRec :=
  ⟨it.service, it.id, workerRegion⟩

/-- `part_000` worker push (line 842): `it.region ?? region`. -/
def pushRecFull (workerRegion : String) (it : UnitItem) : EmitRec :=
  ⟨it.service, it.id, it.regionField.getD workerRegion⟩

/-- Records the `src/index.js` pipeline emits for the CCN unit when the
worker processes `workerRegion`. -/
def ccnEmittedIndex (workerRegion : String) (ccnSet : List JVal) : List EmitRec :=
  (ccnUnitIndex workerRegion ccnSet).map (pushRecIndex workerRegion)

/-- Records the `part_000` pipeline emits for the CCN unit when the
worker processes `workerRegion`. -/
def ccnEmittedFull (workerRegion : String) (ccnSet : List JVal) : List EmitRec :=
  (ccnUnitFull workerRegion ccnSet).map (pushRecFull workerRegion)

/-! ### The global COS bucket scanner (`src/index.js` lines 381-453) -/

/-- A COS bucket as listed by `getService`. -/
structure Bucket where
  name : String
  location : String
deriving Repr, DecidableEq

/-- Outcome of one `getBucketTagging` call: success with a payload, or a
failure carrying an HTTP status code and an error code string. -/
inductive TagOutcome where
  | ok : JVal → TagOutcome
  | err : Nat → String → TagOutcome
deriving Repr

/-- JS `a || b`. -/
def jsOr (a b : JVal) : JVal := if truthy a then a else b

/-- `normalizeCosTagSet` (`src/index.js` lines 394-401):
`data?.TagSet || data?.Tags?.Tag || data?.Tags || []`, then kept only if
it is an array. -/
def normalizeCosTagSet (data : JVal) : List JVal :=
  let maybe := jsOr (getField data "TagSet")
    (jsOr (getField (getField data "Tags") "Tag")
      (jsOr (getField data "Tags") (.arr [])))
  match maybe with
  | .arr xs => xs
  | _ => []

/-- The "tagging absent" recognizer (`src/index.js` lines 423-426):
`err.statusCode === 404 || String(err.errorCode).toLowerCase() === "nosuchtagset"`. -/
def isNoSuchTagSet (statusCode : Nat) (errorCode : String) : Bool :=
  statusCode == 404 || jsToLower errorCode == "nosuchtagset"

/-- The inner `getBucketTagging` promise (`src/index.js` lines 419-435):
resolves with the payload (defaulted to an empty tag set when falsy), or
with an empty tag set on a 404/NoSuchTagSet error, and rejects on any
other error. -/
def cosTagData (outcome : TagOutcome) : Except Unit JVal :=
  match outcome with
  | .ok data =>
    .ok (if truthy data then data else JVal.obj [("TagSet", .arr [])])
  | .err statusCode errorCode =>
    if isNoSuchTagSet statusCode errorCode then
      .ok (JVal.obj [("TagSet", .arr [])])
    else
      .error ()

/-- The per-bucket body of the COS worker (`src/index.js` lines 418-444):
a rejected tag fetch is caught and the bucket is dropped; otherwise the
bucket yields a record iff `hasNoTags` holds of the normalized tag set.
(`src/index.js` stamps the bucket's `Location` as the record region.) -/
def cosProcessBucket (tagging : Bucket → TagOutcome) (b : Bucket) : Option ScanRec :=
  match cosTagData (tagging b) with
  | .error _ => none
  | .ok data =>
    let tagSet := normalizeCosTagSet data
    if hasNoTags (JVal.obj [("TagSet", JVal.arr tagSet)]) then
      some ⟨b.location, "COS", b.name⟩
    else
      none

/-- `scanCOS` over the bucket list.  The worker pool claims buckets
one at a time via an atomic cursor; the per-bucket outcome does not
depend on the interleaving, so the pool is modelled by the sequential
claim order. -/
def scanCOS (tagging : Bucket → TagOutcome) : List Bucket → List ScanRec
  | [] => []
  | b :: rest =>
    match cosProcessBucket tagging b with
    | some r => r :: scanCOS tagging rest
    | none => scanCOS tagging rest

/-! ### The region dispatcher (`src/index.js` lines 491-518)

Each of the `min(maxRegionConcurrency, regions.length)` workers loops
`while (rIndex < regions.length) { const region = regions[rIndex++]; ... }`.
JavaScript's run-to-completion semantics makes the bounds check and the
post-increment a single atomic step (there is no `await` between them),
which the `claim` step below reflects.  Regions are tracked by index into
the resolved region list. -/

/-- Shared dispatcher state: the claim cursor `rIndex`, the list of
claimed region indices in claim order, and one running flag per worker. -/
structure DState where
  cursor : Nat
  claimed : List Nat
  running : List Bool
deriving Repr, DecidableEq

/-- One atomic scheduler step of the dispatcher over `n` regions. -/
inductive DStep (n : Nat) : DState → DState → Prop
  | claim (s : DState) (w : Nat) (hw : s.running[w]? = some true)
      (h : s.cursor < n) :
      DStep n s ⟨s.cursor + 1, s.claimed ++ [s.cursor], s.running⟩
  | exit (s : DState) (w : Nat) (hw : s.running[w]? = some true)
      (h : n ≤ s.cursor) :
      DStep n s ⟨s.cursor, s.claimed, s.running.set w false⟩

/-- States reachable by `W` workers dispatching `n` regions from the
initial state (cursor 0, nothing claimed, all workers running). -/
inductive DReachable (n W : Nat) : DState → Prop
  | init : DReachable n W ⟨0, [], List.replicate W true⟩
  | step {s t : DState} : DReachable n W s → DStep n s t → DReachable n W t

/-- The dispatcher invariant carried by every reachable state. -/
def DInv (n W : Nat) (s : DState) : Prop :=
  s.cursor ≤ n ∧ s.claimed = List.range s.cursor ∧
    s.running.length = W ∧ (false ∈ s.running → n ≤ s.cursor)

/-! ### The entry point `main_handler` (`src/index.js` lines 456-554)

The network is abstracted as an environment of oracles.  Every unit
invocation sits inside its own `try/catch`, so its outcome is an
`Except`; the pushes `outputs.push(...); untaggedCount++` happen in
lockstep with no suspension point between them.  Record completion order
across the worker pool is nondeterministic, but the claims settled
against this model (run summary shape, count/length agreement, the final
sort) are independent of the interleaving, so the fold below fixes the
sequential region-by-region, service-by-service order. -/

/-- What a region-scoped unit resolves with: a list of `(service, id)`
items (`src/index.js` pushes `{service: it.service, id: it.id, region}`,
stamping the worker's region). -/
structure SvcItem where
  service : String
  id : String
deriving Repr, DecidableEq

/-- The oracle environment of one run. -/
structure RunEnv where
  regionsRes : Except String (List String)
  unitRes : String → String → Except String (List SvcItem)
  cosRes : Except String (List ScanRec)
  exportRes : Except String Unit

/-- The service keys iterated by the region worker
(`src/index.js` lines 459-489). -/
def regionServices : List String :=
  ["CVM", "CBS", "CLB", "SCF", "TKE", "TKE_SERVERLESS", "TCR",
   "BANDWIDTH_PACK", "VPN", "CCN", "NAT_GATEWAY", "EIP", "LIGHTHOUSE",
   "CLS", "ANTIDDOS", "TDMQ_CKAFKA", "TDMQ_ROCKETMQ", "TDMQ_RABBITMQ",
   "TDMQ_PULSAR", "CLOUD_FIREWALL", "MYSQL", "MSSQL", "POSTGRES",
   "TDSQL", "CYNOSDB", "REDIS", "MONGODB", "EMR", "ELASTICSEARCH"]

/-- The keys `scannersForRegion` actually defines (`src/index.js` lines
93-353); `TKE_SERVERLESS` is in `regionServices` but has no scanner of
its own (`if (!fn) return`), its records being emitted by `TKE`. -/
def scannerKeys : List String :=
  ["CVM", "CBS", "CLB", "SCF", "TKE", "TCR",
   "BANDWIDTH_PACK", "VPN", "CCN", "NAT_GATEWAY", "EIP", "LIGHTHOUSE",
   "CLS", "ANTIDDOS", "TDMQ_CKAFKA", "TDMQ_ROCKETMQ", "TDMQ_RABBITMQ",
   "TDMQ_PULSAR", "CLOUD_FIREWALL", "MYSQL", "MSSQL", "POSTGRES",
   "TDSQL", "CYNOSDB", "REDIS", "MONGODB", "EMR", "ELASTICSEARCH"]

/-- The shared accumulator: the `outputs` array and the `untaggedCount`
counter. -/
def pushItems (region : String) (items : List SvcItem)
    (st : List ScanRec × Nat) : List ScanRec × Nat :=
  items.foldl (fun acc it => (acc.1 ++ [⟨region, it.service, it.id⟩], acc.2 + 1)) st

/-- One unit task of the region worker: skip when the key has no scanner,
absorb a failed unit, and push every item of a successful one. -/
def runUnit (env : RunEnv) (region svc : String)
    (st : List ScanRec × Nat) : List ScanRec × Nat :=
  if svc ∈ scannerKeys then
    match env.unitRes region svc with
    | .error _ => st
    | .ok items => pushItems region items st
  else st

/-- All unit tasks of one claimed region. -/
def runRegion (env : RunEnv) (region : String)
    (st : List ScanRec × Nat) : List ScanRec × Nat :=
  regionServices.foldl (fun st svc => runUnit env region svc st) st

/-- The dispatcher phase over the resolved regions. -/
def runAllRegions (env : RunEnv) (regions : List String)
    (st : List ScanRec × Nat) : List ScanRec × Nat :=
  regions.foldl (fun st r => runRegion env r st) st

/-- The global COS phase (`src/index.js` lines 521-530): a throwing
`scanCOS` is absorbed, a successful one is pushed item by item. -/
def runCosPhase (env : RunEnv) (st : List ScanRec × Nat) : List ScanRec × Nat :=
  match env.cosRes with
  | .error _ => st
  | .ok items => items.foldl (fun acc it => (acc.1 ++ [it], acc.2 + 1)) st

/-- The observable final state of one run. -/
structure RunOutcome where
  scannedRegions : Nat
  untaggedCount : Nat
  outputs : List ScanRec
  sorted : List ScanRec
deriving Repr

/-- The run body: region resolution is the only unguarded await, every
later failure degrades.  The export attempt (`try/catch` around
`exportCsvToCos`) cannot influence the returned value. -/
def runScan (env : RunEnv) : Except String RunOutcome :=
  match env.regionsRes with
  | .error e => .error e
  | .ok regions =>
    let st := runCosPhase env (runAllRegions env regions ([], 0))
    let _export := env.exportRes
    .ok ⟨regions.length, st.2, st.1, sortRecords st.1⟩

/-- `main_handler`'s returned summary
`{scannedRegions: regions.length, untaggedCount}`. -/
def main_handler (env : RunEnv) : Except String (Nat × Nat) :=
  (runScan env).map (fun o => (o.scannedRegions, o.untaggedCount))

/-! ### Concrete sample inputs used to instantiate the theorems -/

/-- A run in which every unit invocation, the COS scan, and the export
all fail; only region resolution succeeds. -/
def envAllFail : RunEnv :=
  ⟨.ok ["r1"], fun _ _ => .error "unit failure", .error "cos failure",
   .error "export failure"⟩

/-- A run over two regions where only the CVM unit succeeds (one
untagged instance per region) and the COS scan finds one bucket. -/
def envSample : RunEnv :=
  ⟨.ok ["r1", "r2"],
   fun region svc =>
     if svc = "CVM" then .ok [⟨"CVM", "id-" ++ region⟩] else .error "skip",
   .ok [⟨"global", "COS", "bkt"⟩],
   .ok ()⟩

/-- A tag-descriptor oracle: one bucket answers 404 (tagging never
configured), every other bucket fails with a server error. -/
def cosTaggingSample : Bucket → TagOutcome := fun b =>
  if b.name = "untagged-bucket" then .err 404 "NotFound"
  else .err 500 "ServerError"

/-- A single untagged CCN payload. -/
def ccnSample : JVal := .obj [("CcnId", .str "ccn-1")]

/-! ## Helper lemmas -/

theorem charListLt_irrefl : ∀ as : List Char, charListLt as as = false := by
  intro as
  induction as with
  | nil => rfl
  | cons a as ih => simp [charListLt, ih]

theorem charListLt_asymm :
    ∀ as bs : List Char, charListLt as bs = true → charListLt bs as = false := by
  intro as
  induction as with
  | nil =>
    intro bs h
    cases bs with
    | nil => simp [charListLt] at h
    | cons b bs => rfl
  | cons a as ih =>
    intro bs h
    cases bs with
    | nil => simp [charListLt] at h
    | cons b bs =>
      by_cases hab : a = b
      · subst hab
        simp only [charListLt, if_pos rfl] at h ⊢
        exact ih bs h
      · have hba : ¬ b = a := fun e => hab e.symm
        simp only [charListLt, if_neg hab, if_neg hba, decide_eq_true_eq] at h ⊢
        simp [lt_asymm h]

theorem charListLt_trans :
    ∀ as bs cs : List Char, charListLt as bs = true → charListLt bs cs = true →
      charListLt as cs = true := by
  intro as
  induction as with
  | nil =>
    intro bs cs h1 h2
    cases bs with
    | nil => simp [charListLt] at h1
    | cons b bs =>
      cases cs with
      | nil => simp [charListLt] at h2
      | cons c cs => rfl
  | cons a as ih =>
    intro bs cs h1 h2
    cases bs with
    | nil => simp [charListLt] at h1
    | cons b bs =>
      cases cs with
      | nil => simp [charListLt] at h2
      | cons c cs =>
        by_cases hab : a = b <;> by_cases hbc : b = c
        · subst hab; subst hbc
          simp only [charListLt, if_pos rfl] at h1 h2 ⊢
          exact ih bs cs h1 h2
        · subst hab
          simp only [charListLt, if_pos rfl, if_neg hbc] at h2 ⊢
          exact h2
        · subst hbc
          simp only [charListLt, if_pos rfl, if_neg hab] at h1 ⊢
          exact h1
        · simp only [charListLt, if_neg hab, if_neg hbc, decide_eq_true_eq] at h1 h2
          have hac : a < c := lt_trans h1 h2
          simp [charListLt, ne_of_lt hac, hac]

theorem charListLt_connected :
    ∀ as bs : List Char, charListLt as bs = false → charListLt bs as = false →
      as = bs := by
  intro as
  induction as with
  | nil =>
    intro bs h1 _
    cases bs with
    | nil => rfl
    | cons b bs => simp [charListLt] at h1
  | cons a as ih =>
    intro bs h1 h2
    cases bs with
    | nil => simp [charListLt] at h2
    | cons b bs =>
      by_cases hab : a = b
      · subst hab
        simp only [charListLt, if_pos rfl] at h1 h2
        rw [ih bs h1 h2]
      · have hba : ¬ b = a := fun e => hab e.symm
        simp only [charListLt, if_neg hab, if_neg hba, decide_eq_false_iff_not] at h1 h2
        exact absurd (le_antisymm (not_lt.mp h2) (not_lt.mp h1)) hab

theorem strLt_irrefl (a : String) : strLt a a = false := charListLt_irrefl _

theorem strLt_asymm {a b : String} (h : strLt a b = true) : strLt b a = false :=
  charListLt_asymm _ _ h

theorem strLt_trans {a b c : String} (h1 : strLt a b = true)
    (h2 : strLt b c = true) : strLt a c = true :=
  charListLt_trans _ _ _ h1 h2

theorem strLt_connected {a b : String} (h1 : strLt a b = false)
    (h2 : strLt b a = false) : a = b := by
  have h := charListLt_connected a.data b.data h1 h2
  cases a
  cases b
  exact congrArg String.mk (by simpa using h)

theorem strLt_neg_trans {a b c : String} (h1 : strLt b a = false)
    (h2 : strLt c b = false) : strLt c a = false := by
  cases h3 : strLt c a with
  | false => rfl
  | true =>
    exfalso
    cases h4 : strLt b c with
    | false =>
      have e : b = c := strLt_connected h4 h2
      rw [e] at h1
      rw [h1] at h3
      exact Bool.noConfusion h3
    | true =>
      have : strLt b a = true := strLt_trans h4 h3
      rw [h1] at this
      exact Bool.noConfusion this

theorem jsSetDedup_aux_nodup (l : List String) :
    ∀ acc : List String, acc.Nodup →
      (l.foldl (fun acc x => if x ∈ acc then acc else acc ++ [x]) acc).Nodup := by
  induction l with
  | nil => intro acc h; exact h
  | cons x rest ih =>
    intro acc h
    simp only [List.foldl_cons]
    by_cases hx : x ∈ acc
    · rw [if_pos hx]
      exact ih acc h
    · rw [if_neg hx]
      refine ih _ (List.Nodup.append h (List.nodup_singleton x) ?_)
      simp [List.disjoint_singleton, hx]

theorem jsSetDedup_nodup (l : List String) : (jsSetDedup l).Nodup :=
  jsSetDedup_aux_nodup l [] List.nodup_nil

theorem firstTagLike_eq_findSome (l : List JVal) :
    firstTagLike l = ((l.findSome? tagProj).getD []) := by
  induction l with
  | nil => rfl
  | cons c rest ih =>
    cases c <;> simp [firstTagLike, List.findSome?_cons, tagProj, ih]

theorem pagedFetchAux_fetchOf {α : Type} (backing : List α) (p : Nat) (hp : 0 < p) :
    ∀ fuel offset : Nat, (backing.drop offset).length < fuel →
      pagedFetchAux (fetchOf backing) p offset fuel =
        some (backing.drop offset, (backing.drop offset).length / p + 1) := by
  intro fuel
  induction fuel with
  | zero => intro offset h; exact absurd h (Nat.not_lt_zero _)
  | succ fuel ih =>
    intro offset h
    rcases Nat.lt_or_ge (backing.drop offset).length p with hcl | hcl
    · have htake : (backing.drop offset).take p = backing.drop offset :=
        List.take_of_length_le hcl.le
      have hdiv : (backing.drop offset).length / p = 0 := Nat.div_eq_of_lt hcl
      have hcond : ((backing.drop offset).take p).length < p := by
        rw [htake]; exact hcl
      simp only [pagedFetchAux, fetchOf]
      rw [if_pos hcond, htake, hdiv]
    · have htl : ((backing.drop offset).take p).length = p := by
        rw [List.length_take]
        exact min_eq_left hcl
      have hnotlt : ¬ ((backing.drop offset).take p).length < p := by
        rw [htl]
        exact lt_irrefl p
      have hdrop : backing.drop (offset + p) = (backing.drop offset).drop p :=
        (List.drop_drop p offset backing).symm
      have hlen : (backing.drop (offset + p)).length < fuel := by
        rw [hdrop, List.length_drop]
        omega
      have hrec := ih (offset + p) hlen
      rw [hdrop] at hrec
      simp only [pagedFetchAux, fetchOf, hnotlt, if_false, hrec]
      rw [List.take_append_drop]
      have hlen2 : ((backing.drop offset).drop p).length =
          (backing.drop offset).length - p := List.length_drop _ _
      rw [hlen2]
      have harith : (backing.drop offset).length / p =
          ((backing.drop offset).length - p) / p + 1 :=
        Nat.div_eq_sub_div hp hcl
      rw [harith]

theorem pagedFetch_spec {α : Type} (backing : List α) (p : Nat) (hp : 0 < p) :
    pagedFetch backing p = some (backing, backing.length / p + 1) := by
  have h := pagedFetchAux_fetchOf backing p hp (backing.length + 1) 0 (by simp)
  simpa [pagedFetch] using h

theorem pagedFetchAux_fullPage_none :
    ∀ fuel offset : Nat, pagedFetchAux fullPageFetch 100 offset fuel = none := by
  intro fuel
  induction fuel with
  | zero => intro offset; rfl
  | succ fuel ih =>
    intro offset
    simp [pagedFetchAux, fullPageFetch, ih]

set_option maxRecDepth 8000 in
theorem pagedFetchTimedAux_fullPage :
    ∀ remaining offset : Nat, ∃ items,
      pagedFetchTimedAux fullPageFetchAsync 100 15000 offset remaining =
        .ok (items, remaining + 1) := by
  intro remaining
  induction remaining with
  | zero => intro offset; exact ⟨_, rfl⟩
  | succ r ih =>
    intro offset
    obtain ⟨items, hl⟩ := ih (offset + 100)
    refine ⟨List.replicate 100 0 ++ items, ?_⟩
    conv_lhs => rw [pagedFetchTimedAux]
    simp only [fullPageFetchAsync, withTimeout, hl]
    rw [if_pos (by norm_num : (0:Nat) ≤ 15000)]
    exact rfl

theorem recLEb_iff_lexTupleLE (a b : ScanRec) :
    recLEb a b = true ↔ lexTupleLE a b := by
  unfold recLEb lexTupleLE
  cases h1 : strLt a.region b.region with
  | true => simp [h1]
  | false =>
    cases h2 : strLt b.region a.region with
    | true =>
      have hne : ¬ a.region = b.region := fun e => by
        rw [e, strLt_irrefl] at h2
        exact Bool.noConfusion h2
      simp [h1, h2, hne]
    | false =>
      have hreg : a.region = b.region := strLt_connected h1 h2
      cases h3 : strLt a.service b.service with
      | true => simp [h1, h2, h3, hreg]
      | false =>
        cases h4 : strLt b.service a.service with
        | true =>
          have hne : ¬ a.service = b.service := fun e => by
            rw [e, strLt_irrefl] at h4
            exact Bool.noConfusion h4
          simp [h1, h2, h3, h4, hreg, hne]
        | false =>
          have hsvc : a.service = b.service := strLt_connected h3 h4
          simp [h1, h2, h3, h4, hreg, hsvc]

theorem recLE_total (a b : ScanRec) : recLE a b ∨ recLE b a := by
  rw [recLE, recLE, recLEb_iff_lexTupleLE, recLEb_iff_lexTupleLE]
  cases h1 : strLt a.region b.region with
  | true => exact Or.inl (Or.inl h1)
  | false =>
    cases h2 : strLt b.region a.region with
    | true => exact Or.inr (Or.inl h2)
    | false =>
      have hreg : a.region = b.region := strLt_connected h1 h2
      cases h3 : strLt a.service b.service with
      | true => exact Or.inl (Or.inr ⟨hreg, Or.inl h3⟩)
      | false =>
        cases h4 : strLt b.service a.service with
        | true => exact Or.inr (Or.inr ⟨hreg.symm, Or.inl h4⟩)
        | false =>
          have hsvc : a.service = b.service := strLt_connected h3 h4
          cases h5 : strLt b.id a.id with
          | false => exact Or.inl (Or.inr ⟨hreg, Or.inr ⟨hsvc, h5⟩⟩)
          | true =>
            exact Or.inr (Or.inr ⟨hreg.symm, Or.inr ⟨hsvc.symm, strLt_asymm h5⟩⟩)

theorem lexTupleLE_trans {a b c : ScanRec} (h1 : lexTupleLE a b)
    (h2 : lexTupleLE b c) : lexTupleLE a c := by
  rcases h1 with h1 | ⟨e1, h1⟩
  · rcases h2 with h2 | ⟨e2, _⟩
    · exact Or.inl (strLt_trans h1 h2)
    · exact Or.inl (e2 ▸ h1)
  · rcases h2 with h2 | ⟨e2, h2⟩
    · exact Or.inl (e1 ▸ h2)
    · refine Or.inr ⟨e1.trans e2, ?_⟩
      rcases h1 with h1 | ⟨f1, h1⟩
      · rcases h2 with h2 | ⟨f2, _⟩
        · exact Or.inl (strLt_trans h1 h2)
        · exact Or.inl (f2 ▸ h1)
      · rcases h2 with h2 | ⟨f2, h2⟩
        · exact Or.inl (f1 ▸ h2)
        · exact Or.inr ⟨f1.trans f2, strLt_neg_trans h1 h2⟩

theorem recLE_trans {a b c : ScanRec} (h1 : recLE a b) (h2 : recLE b c) :
    recLE a c := by
  rw [recLE, recLEb_iff_lexTupleLE] at h1 h2 ⊢
  exact lexTupleLE_trans h1 h2

theorem scanCOS_append (tagging : Bucket → TagOutcome) (l₁ l₂ : List Bucket) :
    scanCOS tagging (l₁ ++ l₂) = scanCOS tagging l₁ ++ scanCOS tagging l₂ := by
  induction l₁ with
  | nil => rfl
  | cons b rest ih =>
    simp only [List.cons_append, scanCOS]
    cases cosProcessBucket tagging b <;> simp [ih]

theorem cosProcessBucket_noTagSet (tagging : Bucket → TagOutcome) (b : Bucket)
    (sc : Nat) (ec : String) (h : tagging b = .err sc ec)
    (hns : sc = 404 ∨ jsToLower ec = "nosuchtagset") :
    cosProcessBucket tagging b = some ⟨b.location, "COS", b.name⟩ := by
  have hb : isNoSuchTagSet sc ec = true := by
    rcases hns with h1 | h1 <;> simp [isNoSuchTagSet, h1]
  simp only [cosProcessBucket, cosTagData, h, hb, if_true]
  exact rfl

theorem cosProcessBucket_otherErr (tagging : Bucket → TagOutcome) (b : Bucket)
    (sc : Nat) (ec : String) (h : tagging b = .err sc ec)
    (hns : ¬ (sc = 404 ∨ jsToLower ec = "nosuchtagset")) :
    cosProcessBucket tagging b = none := by
  have hb : isNoSuchTagSet sc ec = false := by
    rw [not_or] at hns
    simp [isNoSuchTagSet, hns.1, hns.2]
  simp [cosProcessBucket, cosTagData, h, hb]

theorem dstep_inv {n W : Nat} {s t : DState} (hs : DInv n W s)
    (h : DStep n s t) : DInv n W t := by
  obtain ⟨h1, h2, h3, h4⟩ := hs
  cases h with
  | claim w hw hc =>
    refine ⟨hc, ?_, h3, fun hf => le_trans (h4 hf) (Nat.le_succ _)⟩
    simp [h2, List.range_succ]
  | exit w hw hc =>
    refine ⟨h1, h2, ?_, fun _ => hc⟩
    simp [h3]

theorem dreachable_inv {n W : Nat} {s : DState} (h : DReachable n W s) :
    DInv n W s := by
  induction h with
  | init =>
    refine ⟨Nat.zero_le n, rfl, List.length_replicate _ _, fun hf => ?_⟩
    exact absurd (List.eq_of_mem_replicate hf) (by simp)
  | step _ hstep ih => exact dstep_inv ih hstep

theorem foldl_push_inv {β : Type} (f : List ScanRec × Nat → β → List ScanRec × Nat)
    (hf : ∀ st b, st.1.length = st.2 → (f st b).1.length = (f st b).2) :
    ∀ (l : List β) (st : List ScanRec × Nat), st.1.length = st.2 →
      (l.foldl f st).1.length = (l.foldl f st).2 := by
  intro l
  induction l with
  | nil => intro st h; exact h
  | cons b rest ih => intro st h; exact ih _ (hf st b h)

theorem pushItems_inv (region : String) (items : List SvcItem)
    (st : List ScanRec × Nat) (h : st.1.length = st.2) :
    (pushItems region items st).1.length = (pushItems region items st).2 := by
  refine foldl_push_inv _ (fun st it hst => ?_) items st h
  simp [hst]

theorem runUnit_inv (env : RunEnv) (region svc : String)
    (st : List ScanRec × Nat) (h : st.1.length = st.2) :
    (runUnit env region svc st).1.length = (runUnit env region svc st).2 := by
  unfold runUnit
  by_cases hk : svc ∈ scannerKeys
  · rw [if_pos hk]
    cases env.unitRes region svc with
    | error e => exact h
    | ok items => exact pushItems_inv region items st h
  · rw [if_neg hk]
    exact h

theorem runRegion_inv (env : RunEnv) (region : String)
    (st : List ScanRec × Nat) (h : st.1.length = st.2) :
    (runRegion env region st).1.length = (runRegion env region st).2 :=
  foldl_push_inv _ (fun st svc hst => runUnit_inv env region svc st hst)
    regionServices st h

theorem runAllRegions_inv (env : RunEnv) (regions : List String)
    (st : List ScanRec × Nat) (h : st.1.length = st.2) :
    (runAllRegions env regions st).1.length = (runAllRegions env regions st).2 :=
  foldl_push_inv _ (fun st r hst => runRegion_inv env r st hst) regions st h

theorem runCosPhase_inv (env : RunEnv) (st : List ScanRec × Nat)
    (h : st.1.length = st.2) :
    (runCosPhase env st).1.length = (runCosPhase env st).2 := by
  unfold runCosPhase
  cases env.cosRes with
  | error e => exact h
  | ok items =>
    refine foldl_push_inv _ (fun st it hst => ?_) items st h
    simp [hst]

/-! ## Claim theorems -/

/-- C1: the claim says `pagedFetch` stops issuing page requests once the
configured maximum page count is reached, making at most `maxPages` calls
on a backing of exactly `pageSize × maxPages` items.  The effective
`pagedFetch` (the only one in `src/index.js`, and the overriding second
declaration in `part_000`) has no page cap: with the configured
`pageSize = 100` and `MAX_PAGES_PER_LIST = 50`, a backing of exactly
5000 items costs 51 page calls, and a backend whose every page is full
is never stopped at any fuel; only the shadowed (dead) first declaration
obeys the claim, stopping after exactly 50 calls. -/
theorem claim1_page_cap_missing :
    pagedFetch (List.replicate (100 * 50) 0) 100 =
      some (List.replicate (100 * 50) 0, 51)
  ∧ (∀ fuel offset : Nat, pagedFetchAux fullPageFetch 100 offset fuel = none)
  ∧ (∃ items, pagedFetchTimed fullPageFetchAsync 100 15000 50 =
      .ok (items, 50)) := by
  refine ⟨?_, pagedFetchAux_fullPage_none, ?_⟩
  · have h := pagedFetch_spec (List.replicate (100 * 50) (0 : Nat)) 100 (by norm_num)
    rw [h]
    norm_num
  · obtain ⟨items, hl⟩ := pagedFetchTimedAux_fullPage 49 0
    exact ⟨items, hl⟩

/-- C2: the claim says every page fetch is wrapped in a timeout and a
non-resolving page makes the whole `pagedFetch` fail with a timeout
error, absorbed at the scanner-unit boundary.  The effective `pagedFetch`
never calls `withTimeout`: a page that never settles makes the whole
paginated fetch hang rather than fail.  The timeout behavior lives only
in the shadowed dead first declaration (second conjunct); in `part_000`
the hang is absorbed by the per-unit `withTimeout` at the worker (third
conjunct), while the `src/index.js` worker awaits the unit bare, so the
hang propagates to the worker (fourth conjunct). -/
theorem claim2_page_timeout_missing :
    (∀ fuel : Nat, pagedFetchPlainAux hangingFetch 100 0 (fuel + 1) = some .hang)
  ∧ pagedFetchTimed hangingFetch 100 15000 50 = .error "timeout:page"
  ∧ unitRunFull 20000 "svc" (none : Option (Nat × List ScanRec)) = []
  ∧ unitRunIndex (none : Option (Nat × List ScanRec)) = .hang :=
  ⟨fun _ => rfl, rfl, rfl, rfl⟩

/-- C3 (counterexample): the claim reads `extractTags` as returning the
first candidate that is non-empty/non-null.  On the payload
`obj [Tags ↦ [], TagSet ↦ ["a"]]` the code returns `[]` (an empty array
is truthy, so the probe stops at `Tags`), while the claim's reading
skips the empty `Tags` and returns `["a"]`. -/
theorem claim3_counterexample :
    extractTags (.obj [("Tags", .arr []), ("TagSet", .arr [.str "a"])]) = []
  ∧ extractTagsClaimC3 (.obj [("Tags", .arr []), ("TagSet", .arr [.str "a"])]) =
      [.str "a"]
  ∧ ([] : List JVal) ≠ [JVal.str "a"] :=
  ⟨rfl, rfl, by simp⟩

/-- C3 (amended): `extractTags` returns, for the first truthy candidate
(truthiness keeps empty sequences and mappings) that is a sequence or a
mapping, the sequence as-is or the mapping's key sequence; truthy
candidates of any other shape are skipped in favor of later ones, and
when nothing qualifies the result is empty.  In particular
`extractTags (obj [Tags ↦ obj [a ↦ 1]]) = ["a"]` and
`extractTags (obj []) = []`. -/
theorem claim3_extractTags_first_tag_like :
    (∀ v, extractTags v =
        if truthy v then
          (((candidatesOf v).filter truthy).findSome? tagProj).getD []
        else [])
  ∧ extractTags (.obj [("Tags", .obj [("a", .num 1)])]) = [.str "a"]
  ∧ extractTags (.obj []) = [] := by
  refine ⟨fun v => ?_, rfl, rfl⟩
  unfold extractTags
  cases htv : truthy v <;> simp [htv, firstTagLike_eq_findSome]

/-- C4 (counterexample): the claim says the CCN unit emits records
carrying the sentinel region `"global"` from exactly one home region.
In `src/index.js` the unit's items carry no region field and the worker
stamps its concrete region, so the record emitted from the home region
carries `"eu-frankfurt"`, not `"global"`. -/
theorem claim4_counterexample :
    ccnEmittedIndex "eu-frankfurt" [ccnSample] =
      [⟨"CCN", .str "ccn-1", "eu-frankfurt"⟩]
  ∧ ccnEmittedIndex "ap-singapore" [ccnSample] = []
  ∧ ccnEmittedIndex "na-ashburn" [ccnSample] = []
  ∧ ("eu-frankfurt" : String) ≠ "global" :=
  ⟨rfl, rfl, rfl, by decide⟩

/-- C4 (amended): the CCN unit returns an empty result from every region
other than the designated home region `eu-frankfurt`; records emitted
from the home region carry the home region code `"eu-frankfurt"` in the
`src/index.js` entrypoint, and the sentinel `"global"` only in the
`part_000` variant. -/
theorem claim4_ccn_home_region :
    (∀ region ccnSet, region ≠ "eu-frankfurt" →
        ccnEmittedIndex region ccnSet = [] ∧ ccnEmittedFull region ccnSet = [])
  ∧ (∀ ccnSet r, r ∈ ccnEmittedIndex "eu-frankfurt" ccnSet →
        r.region = "eu-frankfurt")
  ∧ (∀ ccnSet r, r ∈ ccnEmittedFull "eu-frankfurt" ccnSet →
        r.region = "global") := by
  refine ⟨fun region s h => ⟨?_, ?_⟩, fun s r hr => ?_, fun s r hr => ?_⟩
  · simp [ccnEmittedIndex, ccnUnitIndex, h]
  · simp [ccnEmittedFull, ccnUnitFull, h]
  · simp only [ccnEmittedIndex, ccnUnitIndex, if_neg (by simp : ¬ ("eu-frankfurt" : String) ≠ "eu-frankfurt")] at hr
    obtain ⟨x, -, rfl⟩ := List.mem_map.mp hr
    rfl
  · simp only [ccnEmittedFull, ccnUnitFull, if_neg (by simp : ¬ ("eu-frankfurt" : String) ≠ "eu-frankfurt")] at hr
    obtain ⟨x, hx, rfl⟩ := List.mem_map.mp hr
    obtain ⟨y, -, rfl⟩ := List.mem_map.mp hx
    rfl

/-- Witness for C4 (amended), at the concrete region `ap-singapore` and a
single untagged CCN. -/
theorem claim4_ccn_home_region_witness :
    ccnEmittedIndex "ap-singapore" [ccnSample] = []
  ∧ (⟨"CCN", .str "ccn-1", "global"⟩ : EmitRec).region = "global" := by
  constructor
  · exact (claim4_ccn_home_region.1 "ap-singapore" [ccnSample] (by decide)).1
  · refine claim4_ccn_home_region.2.2 [ccnSample] ⟨"CCN", .str "ccn-1", "global"⟩ ?_
    rw [show ccnEmittedFull "eu-frankfurt" [ccnSample] =
        [⟨"CCN", JVal.str "ccn-1", "global"⟩] from rfl]
    exact List.mem_singleton.mpr rfl

/-- C5: in every state the dispatcher can reach, no region index is
claimed twice (claim-once), and once every worker has exited the claimed
indices are exactly `0, ..., n-1` — the full resolved region set, each
exactly once. -/
theorem claim5_dispatcher_claim_once (n W : Nat) (s : DState) (hW : 0 < W)
    (hr : DReachable n W s) :
    s.claimed.Nodup ∧
      ((∀ b ∈ s.running, b = false) → s.claimed = List.range n) := by
  obtain ⟨hc, hcl, hlen, hfalse⟩ := dreachable_inv hr
  constructor
  · rw [hcl]
    exact List.nodup_range _
  · intro hall
    have hmem : false ∈ s.running := by
      cases hrun : s.running with
      | nil =>
        rw [hrun] at hlen
        simp at hlen
        omega
      | cons b bs =>
        have hb := hall b (by rw [hrun]; exact List.mem_cons_self _ _)
        rw [← hb]
        exact List.mem_cons_self _ _
    have heq : s.cursor = n := le_antisymm hc (hfalse hmem)
    rw [hcl, heq]

/-- Witness for C5: one worker dispatching two regions claims indices
0 then 1, then exits; the claim list is duplicate-free and covers the
region set. -/
theorem claim5_dispatcher_claim_once_witness :
    ([0, 1] : List Nat).Nodup ∧ ([0, 1] : List Nat) = List.range 2 := by
  have h0 : DReachable 2 1 ⟨0, [], [true]⟩ := DReachable.init
  have h1 : DReachable 2 1 ⟨1, [0], [true]⟩ :=
    h0.step (DStep.claim ⟨0, [], [true]⟩ 0 rfl (by norm_num))
  have h2 : DReachable 2 1 ⟨2, [0, 1], [true]⟩ :=
    h1.step (DStep.claim ⟨1, [0], [true]⟩ 0 rfl (by norm_num))
  have h3 : DReachable 2 1 ⟨2, [0, 1], [false]⟩ :=
    h2.step (DStep.exit ⟨2, [0, 1], [true]⟩ 0 rfl (by norm_num))
  have h := claim5_dispatcher_claim_once 2 1 ⟨2, [0, 1], [false]⟩ (by norm_num) h3
  exact ⟨h.1, h.2 (by intro b hb; simpa using hb)⟩

/-- C6: the aggregated output is sorted ascending by the tuple
`(region, service, id)`, lexicographically field by field, and is a
permutation of the collected records (no deduplication); the spec's
three-record example sorts as stated. -/
theorem claim6_sorted_output :
    (∀ l : List ScanRec,
        (sortRecords l).Sorted lexTupleLE ∧ (sortRecords l).Perm l)
  ∧ sortRecords [⟨"r2", "svc", "b"⟩, ⟨"r1", "svc", "a"⟩, ⟨"r1", "svc", "c"⟩] =
      [⟨"r1", "svc", "a"⟩, ⟨"r1", "svc", "c"⟩, ⟨"r2", "svc", "b"⟩] := by
  constructor
  · intro l
    constructor
    · have htot : IsTotal ScanRec recLE := ⟨recLE_total⟩
      have htr : IsTrans ScanRec recLE := ⟨fun _ _ _ => recLE_trans⟩
      have h := @List.sorted_insertionSort ScanRec recLE _ htot htr l
      exact h.imp (fun hab => (recLEb_iff_lexTupleLE _ _).mp hab)
    · exact List.perm_insertionSort recLE l
  · rfl

/-- C7: `main_handler` returns a summary `(scannedRegions, untaggedCount)`
whenever region resolution succeeds — whatever the unit, COS, and export
outcomes — the summary is unchanged by any export outcome, and a region
resolution failure is the one input condition on which it raises. -/
theorem claim7_summary_total (env : RunEnv) :
    (∀ regions, env.regionsRes = .ok regions →
        ∃ count, main_handler env = .ok (regions.length, count))
  ∧ (∀ ex, main_handler { env with exportRes := ex } = main_handler env)
  ∧ (∀ e, env.regionsRes = .error e → main_handler env = .error e) := by
  refine ⟨fun regions h => ?_, fun ex => rfl, fun e h => ?_⟩
  · refine ⟨(runCosPhase env (runAllRegions env regions ([], 0))).2, ?_⟩
    simp [main_handler, runScan, h, Except.map]
  · simp [main_handler, runScan, h, Except.map]

/-- Witness for C7: a run in which every unit, the COS scan, and the
export all fail still returns the summary, with one scanned region. -/
theorem claim7_summary_total_witness :
    ∃ count, main_handler envAllFail = .ok (1, count) := by
  have h := (claim7_summary_total envAllFail).1 ["r1"] rfl
  simpa using h

/-- C8: in the COS scanner, a bucket whose tag fetch fails with status
404 or error code NoSuchTagSet (case-insensitive) is treated as having
an empty tag set, classified untagged, and a record is emitted for it;
a bucket whose tag fetch fails any other way contributes no record, and
in both cases every other bucket of the list is processed exactly as it
would be on its own. -/
theorem claim8_cos_error_policy (tagging : Bucket → TagOutcome) :
    (∀ (pre post : List Bucket) (b : Bucket) (sc : Nat) (ec : String),
        tagging b = .err sc ec → (sc = 404 ∨ jsToLower ec = "nosuchtagset") →
        scanCOS tagging (pre ++ b :: post) =
          scanCOS tagging pre ++ ⟨b.location, "COS", b.name⟩ :: scanCOS tagging post)
  ∧ (∀ (pre post : List Bucket) (b : Bucket) (sc : Nat) (ec : String),
        tagging b = .err sc ec → ¬ (sc = 404 ∨ jsToLower ec = "nosuchtagset") →
        scanCOS tagging (pre ++ b :: post) =
          scanCOS tagging pre ++ scanCOS tagging post) := by
  constructor
  · intro pre post b sc ec h hns
    rw [show pre ++ b :: post = pre ++ ([b] ++ post) from rfl,
      scanCOS_append, scanCOS_append]
    simp [scanCOS, cosProcessBucket_noTagSet tagging b sc ec h hns]
  · intro pre post b sc ec h hns
    rw [show pre ++ b :: post = pre ++ ([b] ++ post) from rfl,
      scanCOS_append, scanCOS_append]
    simp [scanCOS, cosProcessBucket_otherErr tagging b sc ec h hns]

/-- Witness for C8: a 404 bucket yields its record, a 500 bucket yields
nothing. -/
theorem claim8_cos_error_policy_witness :
    scanCOS cosTaggingSample ([] ++ ⟨"untagged-bucket", "ap-guangzhou"⟩ :: []) =
      scanCOS cosTaggingSample [] ++
        ⟨"ap-guangzhou", "COS", "untagged-bucket"⟩ :: scanCOS cosTaggingSample []
  ∧ scanCOS cosTaggingSample ([] ++ ⟨"failing-bucket", "ap-shanghai"⟩ :: []) =
      scanCOS cosTaggingSample [] ++ scanCOS cosTaggingSample [] := by
  constructor
  · exact (claim8_cos_error_policy cosTaggingSample).1 [] []
      ⟨"untagged-bucket", "ap-guangzhou"⟩ 404 "NotFound" rfl (Or.inl rfl)
  · exact (claim8_cos_error_policy cosTaggingSample).2 [] []
      ⟨"failing-bucket", "ap-shanghai"⟩ 500 "ServerError" rfl (by decide)

/-- C9 (counterexample): the claim says a configured override is split,
trimmed, and deduplicated.  The override path never deduplicates:
`SCAN_REGIONS = "eu-frankfurt,eu-frankfurt"` resolves to the duplicate
list, unlike the claim's reading. -/
theorem claim9_counterexample :
    listAllRegions (some "eu-frankfurt,eu-frankfurt") (.ok []) =
      .ok ["eu-frankfurt", "eu-frankfurt"]
  ∧ listAllRegionsClaimC9 (some "eu-frankfurt,eu-frankfurt") (.ok []) =
      .ok ["eu-frankfurt"]
  ∧ ¬ (["eu-frankfurt", "eu-frankfurt"] : List String).Nodup :=
  ⟨rfl, rfl, by decide⟩

/-- C9 (amended): with a non-blank override the resolver returns the
override split on commas, entries trimmed, empty entries dropped, with
duplicates preserved, and the result does not depend on the
describe-regions call; without an override it issues the call and
returns the extracted region codes deduplicated (duplicate-free), and
fails if the call fails. -/
theorem claim9_region_resolution :
    (∀ s : String, jsTrim s ≠ "" →
        (∀ d₁ d₂, listAllRegions (some s) d₁ = listAllRegions (some s) d₂)
      ∧ (∀ d, listAllRegions (some s) d =
          .ok (((jsSplitComma s).map jsTrim).filter (fun t => t ≠ ""))))
  ∧ (∀ rs, listAllRegions none (.ok rs) = .ok (describeRegionsExtract rs)
      ∧ (describeRegionsExtract rs).Nodup)
  ∧ (∀ e, listAllRegions none (.error e) = .error e) := by
  refine ⟨fun s hs => ⟨fun d₁ d₂ => ?_, fun d => ?_⟩,
    fun rs => ⟨rfl, jsSetDedup_nodup _⟩, fun e => rfl⟩
  · simp [listAllRegions, hs]
  · simp [listAllRegions, hs]

/-- Witness for C9 (amended): a two-region override resolves without
consulting the (failing) describe call. -/
theorem claim9_region_resolution_witness :
    listAllRegions (some "eu-frankfurt, ap-singapore") (.error "network down") =
      .ok ["eu-frankfurt", "ap-singapore"] := by
  have h := ((claim9_region_resolution).1 "eu-frankfurt, ap-singapore"
    (by decide)).2 (.error "network down")
  exact h.trans (by rfl)

/-- C10: the `untaggedCount` of a completed run equals the number of
records in the aggregated `outputs` sequence — the counter and the
record list are pushed in lockstep and never disagree. -/
theorem claim10_count_matches_outputs (env : RunEnv) (o : RunOutcome)
    (h : runScan env = .ok o) : o.outputs.length = o.untaggedCount := by
  unfold runScan at h
  cases henv : env.regionsRes with
  | error e =>
    rw [henv] at h
    exact absurd h (by simp)
  | ok regions =>
    rw [henv] at h
    have hinv := runCosPhase_inv env (runAllRegions env regions ([], 0))
      (runAllRegions_inv env regions ([], 0) rfl)
    simp only [Except.ok.injEq] at h
    rw [← h]
    exact hinv

/-- Witness for C10, on the sample run with two regions, one succeeding
unit per region, and one COS bucket. -/
theorem claim10_count_matches_outputs_witness :
    ∃ o : RunOutcome, runScan envSample = .ok o ∧
      o.outputs.length = o.untaggedCount := by
  have h : runScan envSample = .ok ⟨2, 3,
      [⟨"r1", "CVM", "id-r1"⟩, ⟨"r2", "CVM", "id-r2"⟩, ⟨"global", "COS", "bkt"⟩],
      [⟨"global", "COS", "bkt"⟩, ⟨"r1", "CVM", "id-r1"⟩, ⟨"r2", "CVM", "id-r2"⟩]⟩ := rfl
  exact ⟨_, h, claim10_count_matches_outputs envSample _ h⟩

end Scan
